import Mathlib

/-!
Verification development for the frame-bridge repository.

This file shallowly embeds the computational core of the repository
(`src/frame_bridge/video_processor.py` and `src/frame_bridge/batch_processor.py`)
in Lean 4 and proves or refutes the frozen specification claims about it.

Modelling conventions:
* machine floats are modelled by `ℚ` (exact rational arithmetic);
* a video is a metadata snapshot (`opened`, reported total frame count,
  frame rate, dimensions) plus a decode stream: position `i` decodes to
  `stream[i]` when that entry is `some`, and fails otherwise (`none`
  models an individual decode failure, positions past the end model
  end-of-stream);
* fallible operations return `Except`/`Option` mirroring the Python
  error-as-tuple convention;
* the file system used by the batch layer is an explicit association list
  from paths (directory/basename pairs) to video contents, threaded
  through every operation.

The file is organised as definitions first, then theorems.
-/

set_option maxRecDepth 10000

namespace FrameBridge

/-! ### Definitions: pixel statistics and the structural similarity index

Models the metric used at `video_processor.py:98` via
`skimage.metrics.structural_similarity`.  We use the global-statistics form
of the SSIM formula with the standard constants for 8-bit data
(`C1 = (0.01*255)^2`, `C2 = (0.03*255)^2`).  skimage computes a windowed
mean of this same per-window formula; both the symmetry and the `[-1, 1]`
range proved below are preserved by averaging, so the global form is a
faithful model for the properties at stake. -/

/-- Sum of a pixel function over an `h × w` grid. -/
def pixSum (h w : Nat) (f : Nat → Nat → ℚ) : ℚ :=
  ∑ i ∈ Finset.range h, ∑ j ∈ Finset.range w, f i j

/-- Number of pixels of an `h × w` grid, as a rational. -/
def npix (h w : Nat) : ℚ := ((h * w : Nat) : ℚ)

/-- Mean pixel value over an `h × w` grid (0 when the grid is empty,
matching `x/0 = 0` in `ℚ`). -/
def pixMean (h w : Nat) (f : Nat → Nat → ℚ) : ℚ :=
  pixSum h w f / npix h w

/-- Covariance of two pixel planes over a common `h × w` grid. -/
def pixCov (h w : Nat) (f g : Nat → Nat → ℚ) : ℚ :=
  pixSum h w (fun i j => (f i j - pixMean h w f) * (g i j - pixMean h w g)) / npix h w

/-- Variance of a pixel plane. -/
def pixVar (h w : Nat) (f : Nat → Nat → ℚ) : ℚ := pixCov h w f f

/-- SSIM stabilisation constant `C1 = (0.01 * 255)^2` for 8-bit data. -/
def ssimC1 : ℚ := 65025 / 10000

/-- SSIM stabilisation constant `C2 = (0.03 * 255)^2` for 8-bit data. -/
def ssimC2 : ℚ := 585225 / 10000

/-- Structural similarity index of two same-size grayscale planes
(global-statistics form of the formula computed by
`skimage.metrics.structural_similarity` at `video_processor.py:98`). -/
def ssim (h w : Nat) (f g : Nat → Nat → ℚ) : ℚ :=
  ((2 * pixMean h w f * pixMean h w g + ssimC1) * (2 * pixCov h w f g + ssimC2)) /
    ((pixMean h w f ^ 2 + pixMean h w g ^ 2 + ssimC1) *
      (pixVar h w f + pixVar h w g + ssimC2))

/-! ### Definitions: frames and frame similarity -/

/-- A decoded RGB frame: dimensions plus three pixel planes. -/
structure Frame where
  h : Nat
  w : Nat
  r : Nat → Nat → ℚ
  g : Nat → Nat → ℚ
  b : Nat → Nat → ℚ

/-- A single-channel grayscale plane. -/
structure Gray where
  h : Nat
  w : Nat
  pix : Nat → Nat → ℚ

/-- Grayscale conversion, modelling `cv2.cvtColor(•, COLOR_RGB2GRAY)`
(`video_processor.py:89-90`) with the standard luma weights
`0.299 R + 0.587 G + 0.114 B` in exact rational arithmetic. -/
def rgb2gray (f : Frame) : Gray :=
  ⟨f.h, f.w, fun i j => (299 * f.r i j + 587 * f.g i j + 114 * f.b i j) / 1000⟩

/-- Resampling a grayscale plane to target dimensions, modelling
`cv2.resize` (`video_processor.py:94-95`).  The interpolation kernel is
modelled as coordinate resampling; every property proved below depends
only on the resize being a deterministic function of the source plane and
the target size. -/
def resizeGray (g : Gray) (h' w' : Nat) : Gray :=
  ⟨h', w', fun i j => g.pix (i * g.h / h') (j * g.w / w')⟩

/-- Model of `VideoProcessor.calculate_frame_similarity`
(`video_processor.py:76-103`): convert both frames to grayscale, resize
both to the common intersection size `(min height, min width)`, compute
SSIM, clamp negative values to `0.0`.  The `except` branch returning `0.0`
is unreachable in the rational model because every step is total. -/
def calculate_frame_similarity (f1 f2 : Frame) : ℚ :=
  let gray1 := rgb2gray f1
  let gray2 := rgb2gray f2
  let hc := min gray1.h gray2.h
  let wc := min gray1.w gray2.w
  let g1 := resizeGray gray1 hc wc
  let g2 := resizeGray gray2 hc wc
  max 0 (ssim hc wc g1.pix g2.pix)

/-! ### Definitions: videos and frame extraction -/

/-- A video as seen through OpenCV: an `opened` flag (`cap.isOpened()`),
the reported total frame count (`CAP_PROP_FRAME_COUNT`, a metadata value
that may disagree with what actually decodes), the decode stream, and the
writer-relevant metadata (`fps`, width, height). -/
structure Video where
  opened : Bool
  total : Nat
  stream : List (Option Frame)
  fps : ℚ
  width : Nat
  height : Nat

/-- Seeking to position `i` and calling `cap.read()`: yields the stream
entry when present and decodable, and fails (`ret == False`) otherwise. -/
def Video.decode (v : Video) (i : Nat) : Option Frame :=
  v.stream.getD i none

/-- Sample positions of `extract_frames`, modelling
`np.linspace(0, total_frames-1, num_frames, dtype=int)`
(`video_processor.py:58`): `num` evenly spaced rationals across
`[0, total-1]` (endpoint included), each truncated toward zero by the
integer cast (`⌊·⌋₊`, since all values are nonnegative).  `num = 1` yields
the single start value and `num = 0` an empty list, as in numpy. -/
def frameIndices (total num : Nat) : List Nat :=
  if num = 0 then []
  else if num = 1 then [0]
  else (List.range num).map (fun i => ⌊((i * (total - 1) : Nat) : ℚ) / ((num - 1 : Nat) : ℚ)⌋₊)

/-- Refinement comparison definition, written from the specification's
words, not from the source: sample indices as `count` values evenly
spaced inclusively across `[0, totalFrames-1]`, each rounded to the
nearest integer. -/
def specRoundIndices (total num : Nat) : List Nat :=
  if num = 0 then []
  else if num = 1 then [0]
  else (List.range num).map
    (fun i => (round (((i * (total - 1) : Nat) : ℚ) / ((num - 1 : Nat) : ℚ))).toNat)

/-- Model of `VideoProcessor.extract_frames` (`video_processor.py:34-74`):
fails when the video cannot be opened or reports zero frames; otherwise
seeks to each sample index and decodes one frame, silently skipping
indices whose decode fails (`if ret:`), and returns the
`(frame index, frame)` pairs in sample order. -/
def extract_frames (v : Video) (numFrames : Nat) : Except String (List (Nat × Frame)) :=
  if v.opened = false then .error "could not open video"
  else if v.total = 0 then .error "no frames found"
  else .ok ((frameIndices v.total numFrames).filterMap
    (fun idx => (v.decode idx).map (fun f => (idx, f))))

/-! ### Definitions: connection search -/

/-- Configuration of `VideoProcessor.__init__` (`video_processor.py:23-32`).
The `similarity_threshold` field is stored but never gates any decision in
the embedded code, exactly as in the source. -/
structure Processor where
  similarity_threshold : ℚ
  exclude_edge_frames : Bool

/-- The configuration built by `FrameBridge.__init__` with default
arguments (`video_processor.py:311-318`): threshold `0.3`, edge exclusion
enabled. -/
def defaultProcessor : Processor := ⟨3 / 10, true⟩

/-- Edge-frame exclusion (`video_processor.py:128-136`): when enabled and
the sampled list has more than 2 entries, drop its first and last entry
(`frames[1:-1]`). -/
def edgeFilter (p : Processor) (frames : List (Nat × Frame)) : List (Nat × Frame) :=
  if p.exclude_edge_frames then
    (if 2 < frames.length then frames.tail.dropLast else frames)
  else frames

/-- Running state of the exhaustive search loop
(`video_processor.py:141-144`): best similarity so far (initialised to
`-1`), the two best frames, and their indices. -/
structure SearchState where
  best_similarity : ℚ
  best_frame1 : Option Frame
  best_frame2 : Option Frame
  best_indices : Nat × Nat

/-- Initial search state: `best_similarity = -1`, no frames, indices
`(0, 0)`. -/
def searchInit : SearchState := ⟨-1, none, none, (0, 0)⟩

/-- The similarity score of one candidate pair
`((idx1, frame1), (idx2, frame2))`. -/
def scoreOf (c : (Nat × Frame) × (Nat × Frame)) : ℚ :=
  calculate_frame_similarity c.1.2 c.2.2

/-- One iteration of the search loop (`video_processor.py:152-161`):
update the running best only on strict improvement
(`if similarity > best_similarity`). -/
def searchStep (st : SearchState) (c : (Nat × Frame) × (Nat × Frame)) : SearchState :=
  if st.best_similarity < scoreOf c then
    ⟨scoreOf c, some c.1.2, some c.2.2, (c.1.1, c.2.1)⟩
  else st

/-- The comparison sequence of the nested loops
(`video_processor.py:149-152`): target-set frames of video 2 outer,
video 1's filtered frames inner. -/
def candidate_pairs (frames1f targets : List (Nat × Frame)) :
    List ((Nat × Frame) × (Nat × Frame)) :=
  targets.flatMap (fun t => frames1f.map (fun a => (a, t)))

/-- Model of `VideoProcessor.find_best_connection_frames`
(`video_processor.py:105-170`): extract 30 samples from video 1 and 10
from video 2, apply edge filtering, take the first 3 filtered frames of
video 2 as the target set, and fold the strict-improvement update over
all comparisons.  Extraction errors propagate (the Python error return
also carries dummy score `0.0` and indices `(0, 0)`, captured here by the
`error` constructor). -/
def find_best_connection_frames (p : Processor) (v1 v2 : Video) :
    Except String SearchState := do
  let frames1 ← extract_frames v1 30
  let frames2 ← extract_frames v2 10
  let frames1f := edgeFilter p frames1
  let frames2f := edgeFilter p frames2
  let targets := frames2f.take 3
  pure ((candidate_pairs frames1f targets).foldl searchStep searchInit)

/-! ### Definitions: video splicing -/

/-- Resampling an RGB frame to target dimensions, modelling the
`cv2.resize` call at `video_processor.py:229`. -/
def resizeFrame (f : Frame) (h' w' : Nat) : Frame :=
  ⟨h', w',
    fun i j => f.r (i * f.h / h') (j * f.w / w'),
    fun i j => f.g (i * f.h / h') (j * f.w / w'),
    fun i j => f.b (i * f.h / h') (j * f.w / w')⟩

/-- Sequential reading loop: starting at position `start`, read up to the
given number of frames, stopping early at the first decode failure
(`if not ret: break`).  The first argument of the recursion is the start
position, the second the remaining read budget. -/
def readFramesFrom (v : Video) : Nat → Nat → List Frame
  | _, 0 => []
  | start, n + 1 =>
    match v.decode start with
    | none => []
    | some f => f :: readFramesFrom v (start + 1) n

/-- Model of `VideoProcessor.create_merged_video`
(`video_processor.py:172-245`): fails when either source cannot be
opened; otherwise writes frames `0..cut1` of video 1 (stopping early if a
read fails), then seeks video 2 to `cut2` and writes its remaining frames
through end-of-stream, resizing any whose dimensions differ from video
1's canonical `(height, width)`.  The returned list is the content
written to the output file; the unbounded `while True` loop is bounded by
the stream length, past which every read fails. -/
def create_merged_video (v1 v2 : Video) (cut1 cut2 : Nat) : Except String (List Frame) :=
  if v1.opened = false then .error "could not open video 1"
  else if v2.opened = false then .error "could not open video 2"
  else
    let part1 := readFramesFrom v1 0 (cut1 + 1)
    let part2 := (readFramesFrom v2 cut2 (v2.stream.length - cut2)).map
      (fun f => if (f.h, f.w) ≠ (v1.height, v1.width) then resizeFrame f v1.height v1.width else f)
    .ok (part1 ++ part2)

/-- Modelled from the spec: the fixed-position ("deterministic bridge")
selection policy of spec §4.3 is not present anywhere under `src/`; only
the exhaustive-search policy is implemented there.  Following the spec's
words: always select video A's second-to-last frame
(`totalFramesA - 2`) and video B's second frame (index 1), seeking
directly to each via the source's total-frame metadata, and compute a
SimilarityScore between those two frames for reporting purposes only. -/
def fixedPositionSelect (vA vB : Video) : Nat × Nat × ℚ :=
  let idxA := vA.total - 2
  let idxB := 1
  let reportScore :=
    match vA.decode idxA, vB.decode idxB with
    | some fA, some fB => calculate_frame_similarity fA fB
    | _, _ => 0
  (idxA, idxB, reportScore)

/-! ### Definitions: the single-pair bridge operation -/

/-- Model of `FrameBridge.process_video_bridge`
(`video_processor.py:320-388`) at the level consumed by the batch layer:
find the best connection frames, then materialise the merge at the chosen
indices.  `none` models every error return (the Python function returns an
error text and `output_path = None`; the batch layer only tests
`output_path and os.path.exists(output_path)`).  On success the written
file's content becomes a new video carrying video 1's fps and dimensions,
paired with the winning similarity. -/
def process_video_bridge (v1 v2 : Video) : Option (Video × ℚ) :=
  match find_best_connection_frames defaultProcessor v1 v2 with
  | .error _ => none
  | .ok st =>
    match create_merged_video v1 v2 st.best_indices.1 st.best_indices.2 with
    | .error _ => none
    | .ok frames =>
      some (⟨true, frames.length, frames.map some, v1.fps, v1.width, v1.height⟩,
        st.best_similarity)

/-! ### Definitions: the batch layer

Models `batch_processor.py`.  Paths are (directory, basename) pairs; the
file system is an association list threaded through each operation. -/

/-- A file path, as (containing directory, basename). -/
structure FPath where
  dir : String
  base : String
deriving DecidableEq

/-- Rendering of a path back to the string form the Python code returns. -/
def FPath.toStr (p : FPath) : String := p.dir ++ "/" ++ p.base

/-- The modelled file system: existing directories and existing files with
their video contents. -/
structure BatchFS where
  dirs : List String
  files : List (FPath × Video)

/-- File lookup (`none` when the path does not exist). -/
def BatchFS.get? (fs : BatchFS) (p : FPath) : Option Video :=
  (fs.files.find? (fun e => e.1 = p)).map (fun e => e.2)

/-- Existence test, modelling `os.path.exists` / `Path.exists` on files. -/
def BatchFS.existsFile (fs : BatchFS) (p : FPath) : Bool :=
  fs.files.any (fun e => e.1 = p)

/-- Create or overwrite a file, modelling `shutil.move`'s effect at the
destination (and `shutil.copy2`'s, for the copy branch). -/
def BatchFS.insert (fs : BatchFS) (p : FPath) (v : Video) : BatchFS :=
  ⟨fs.dirs, (p, v) :: fs.files.filter (fun e => e.1 ≠ p)⟩

/-- Delete a file, modelling `Path.unlink`. -/
def BatchFS.remove (fs : BatchFS) (p : FPath) : BatchFS :=
  ⟨fs.dirs, fs.files.filter (fun e => e.1 ≠ p)⟩

/-- The supported container extensions (`batch_processor.py:29`). -/
def supported_formats : List String :=
  [".mp4", ".avi", ".mov", ".mkv", ".wmv", ".flv", ".webm"]

/-- Model of `BatchProcessor.get_video_files` (`batch_processor.py:31-58`):
returns `[]` when the input directory does not exist; otherwise collects
the directory's files matching each supported extension and sorts them by
case-lowered basename (Python's stable sort with key
`basename(x).lower()`). -/
def get_video_files (fs : BatchFS) (input_dir : String) : List FPath :=
  if input_dir ∈ fs.dirs then
    let collected := supported_formats.flatMap (fun ext =>
      (fs.files.map (fun e => e.1)).filter
        (fun p => p.dir = input_dir ∧ p.base.endsWith ext))
    collected.mergeSort (fun a b => a.base.toLower ≤ b.base.toLower)
  else []

/-- One step outcome, mirroring the ad hoc result dictionaries of
`batch_processor.py`: `success` carries step (or pair) number, both
basenames, similarity and output path; `failure` carries the error text;
`copied` is the pairwise odd-file branch (`action: "copied"`); and
`validationError` is the bare `{"error": ...}` record returned when fewer
than 2 videos are discovered. -/
inductive StepRec where
  | success (step : Nat) (video1 video2 : String) (similarity : ℚ) (output : FPath)
  | failure (step : Nat) (video1 video2 : String) (errorText : String)
  | copied (pair : Nat) (video1 : String) (output : FPath)
  | validationError (errorText : String)

/-- Whether a step record is the pairwise `copied` variant. -/
def StepRec.isCopied : StepRec → Bool
  | .copied _ _ _ => true
  | _ => false

/-- Whether a step record is a `success` variant. -/
def StepRec.isSuccess : StepRec → Bool
  | .success _ _ _ _ _ => true
  | _ => false

/-- The intermediate file name `temp_merge_{i}.mp4` of the sequential
fold (`batch_processor.py:92`). -/
def tempMergeName (i : Nat) : String := "temp_merge_" ++ toString i ++ ".mp4"

/-- The validation error message for fewer than 2 discovered videos. -/
def tooFewMsg : String := "結合には最低2つの動画ファイルが必要です"

/-- The loop body of `process_sequential_merge` (`batch_processor.py:81-133`),
as a fuel-indexed recursion over the step counter `i` (the fuel only pays
for the `for i in range(1, len(video_files))` iterations).  Each step
merges `current` with `video_files[i]` into the final name on the last
step and `temp_merge_{i}.mp4` otherwise; on success the result is moved
into place and `current` advances, on failure `current` is left stale;
afterwards (in either case) the preceding intermediate `temp_merge_{i-1}`
is unlinked if it exists, but only when `1 < i < len - 1`. -/
def seqSteps (output_dir output_filename : String) (files : List FPath) :
    Nat → Nat → FPath → List StepRec → BatchFS → (List StepRec × BatchFS)
  | 0, _, _, results, fs => (results, fs)
  | fuel + 1, i, current, results, fs =>
    if i < files.length then
      let next := files.getD i ⟨"", ""⟩
      let temp_output : FPath :=
        if i = files.length - 1 then ⟨output_dir, output_filename⟩
        else ⟨output_dir, tempMergeName i⟩
      let bridged :=
        match fs.get? current, fs.get? next with
        | some vc, some vn => process_video_bridge vc vn
        | _, _ => none
      let afterStep : FPath × List StepRec × BatchFS :=
        match bridged with
        | some (merged, sim) =>
          (temp_output,
            results ++ [StepRec.success i current.base next.base sim temp_output],
            fs.insert temp_output merged)
        | none =>
          (current,
            results ++ [StepRec.failure i current.base next.base "merge failed"],
            fs)
      let prevTemp : FPath := ⟨output_dir, tempMergeName (i - 1)⟩
      let cleaned : BatchFS :=
        if 1 < i ∧ i < files.length - 1 then
          (if afterStep.2.2.existsFile prevTemp then afterStep.2.2.remove prevTemp
           else afterStep.2.2)
        else afterStep.2.2
      seqSteps output_dir output_filename files fuel (i + 1) afterStep.1 afterStep.2.1 cleaned
    else (results, fs)

/-- Model of `BatchProcessor.process_sequential_merge`
(`batch_processor.py:60-142`).  The output directory is created up front
(`__init__` does `output_dir.mkdir(exist_ok=True)`); fewer than 2
discovered videos yield the validation error; otherwise the fold runs
from step 1 with `current` initialised to the first discovered file, and
overall success is defined post hoc as existence of the file at the final
output path. -/
def process_sequential_merge (fs : BatchFS) (output_dir input_dir output_filename : String) :
    (Bool × String × List StepRec) × BatchFS :=
  let fs0 : BatchFS := ⟨output_dir :: fs.dirs, fs.files⟩
  let video_files := get_video_files fs0 input_dir
  if video_files.length < 2 then
    ((false, "", [StepRec.validationError tooFewMsg]), fs0)
  else
    let current := video_files.headD ⟨"", ""⟩
    let stepped := seqSteps output_dir output_filename video_files
      (video_files.length - 1) 1 current [] fs0
    let final_output : FPath := ⟨output_dir, output_filename⟩
    ((stepped.2.existsFile final_output, final_output.toStr, stepped.1), stepped.2)

/-- The pairwise output name
`merged_pair_{pair}_{base1-stem}_{base2-stem}.mp4`
(`batch_processor.py:190`), where the stem is everything before the first
dot (`split('.')[0]`). -/
def pairwiseName (pairIdx : Nat) (b1 b2 : String) : String :=
  "merged_pair_" ++ toString pairIdx ++ "_" ++ (b1.splitOn ".").headD "" ++ "_" ++
    (b2.splitOn ".").headD "" ++ ".mp4"

/-- The loop body of `process_pairwise_merge` (`batch_processor.py:165-225`),
as a fuel-indexed recursion over `i`; the guard `i < files.length - 1`
reproduces `range(0, len(video_files) - 1, 2)` exactly and `i` advances by
2.  Inside the body, `video2` is `files[i+1]` when `i + 1 < len` and
`None` otherwise; the `None` case copies the odd trailing file to a
`single_`-prefixed output. -/
def pairSteps (output_dir : String) (files : List FPath) :
    Nat → Nat → List FPath → List StepRec → BatchFS →
      (List FPath × List StepRec × BatchFS)
  | 0, _, outputs, results, fs => (outputs, results, fs)
  | fuel + 1, i, outputs, results, fs =>
    if i < files.length - 1 then
      let video1 := files.getD i ⟨"", ""⟩
      match files[i + 1]? with
      | none =>
        let output_path : FPath := ⟨output_dir, "single_" ++ video1.base⟩
        let fs1 :=
          match fs.get? video1 with
          | some v => fs.insert output_path v
          | none => fs
        pairSteps output_dir files fuel (i + 2) (outputs ++ [output_path])
          (results ++ [StepRec.copied (i / 2 + 1) video1.base output_path]) fs1
      | some video2 =>
        let output_path : FPath := ⟨output_dir, pairwiseName (i / 2 + 1) video1.base video2.base⟩
        let bridged :=
          match fs.get? video1, fs.get? video2 with
          | some va, some vb => process_video_bridge va vb
          | _, _ => none
        match bridged with
        | some (merged, sim) =>
          pairSteps output_dir files fuel (i + 2) (outputs ++ [output_path])
            (results ++ [StepRec.success (i / 2 + 1) video1.base video2.base sim output_path])
            (fs.insert output_path merged)
        | none =>
          pairSteps output_dir files fuel (i + 2) outputs
            (results ++ [StepRec.failure (i / 2 + 1) video1.base video2.base "merge failed"]) fs
    else (outputs, results, fs)

/-- Model of `BatchProcessor.process_pairwise_merge`
(`batch_processor.py:144-229`): fewer than 2 discovered videos yield the
validation error; otherwise pairs are processed in discovery order and
overall success is `len(output_files) > 0`. -/
def process_pairwise_merge (fs : BatchFS) (output_dir input_dir : String) :
    (Bool × List FPath × List StepRec) × BatchFS :=
  let fs0 : BatchFS := ⟨output_dir :: fs.dirs, fs.files⟩
  let video_files := get_video_files fs0 input_dir
  if video_files.length < 2 then
    ((false, [], [StepRec.validationError tooFewMsg]), fs0)
  else
    let stepped := pairSteps output_dir video_files video_files.length 0 [] [] fs0
    ((0 < stepped.1.length, stepped.1, stepped.2.1), stepped.2.2)

/-! ### Definitions: concrete test fixtures

Small concrete videos used to instantiate hypotheses in witness theorems
and to exhibit counterexamples.  A "sparse" video reports 30 frames of
metadata but only decodes position 0, which keeps concrete evaluation of
the 30-sample extraction small; a "whole" video decodes every position
below its reported total. -/

/-- A 1×1 all-black RGB frame. -/
def zFrame : Frame := ⟨1, 1, fun _ _ => 0, fun _ _ => 0, fun _ _ => 0⟩

/-- A fully decodable `n`-frame video of black 1×1 frames. -/
def wholeVideo (n : Nat) : Video := ⟨true, n, List.replicate n (some zFrame), 30, 1, 1⟩

/-- A video reporting 30 frames of which only position 0 decodes. -/
def sparseVideo : Video := ⟨true, 30, [some zFrame], 30, 1, 1⟩

/-- A video reporting 30 frames none of which decodes. -/
def noDecodeVideo : Video := ⟨true, 30, [none], 30, 1, 1⟩

/-- The 2-frame video produced by merging `sparseVideo` with itself. -/
def twoVideo : Video := ⟨true, 2, [some zFrame, some zFrame], 30, 1, 1⟩

/-- A directory of 4 sparse videos, for the sequential-merge scenarios. -/
def seqInputFS : BatchFS :=
  ⟨["input"],
    [(⟨"input", "a.mp4"⟩, sparseVideo), (⟨"input", "b.mp4"⟩, sparseVideo),
     (⟨"input", "c.mp4"⟩, sparseVideo), (⟨"input", "d.mp4"⟩, sparseVideo)]⟩

/-- A directory of 5 sparse videos (odd count), for the pairwise scenario. -/
def pairInputFS : BatchFS :=
  ⟨["input"],
    [(⟨"input", "a.mp4"⟩, sparseVideo), (⟨"input", "b.mp4"⟩, sparseVideo),
     (⟨"input", "c.mp4"⟩, sparseVideo), (⟨"input", "d.mp4"⟩, sparseVideo),
     (⟨"input", "e.mp4"⟩, sparseVideo)]⟩

/-! ### Theorems: SSIM range and symmetry -/

theorem npix_nonneg (h w : Nat) : 0 ≤ npix h w := by
  unfold npix
  positivity

theorem pixCov_comm (h w : Nat) (f g : Nat → Nat → ℚ) :
    pixCov h w f g = pixCov h w g f := by
  unfold pixCov pixSum
  congr 1
  refine Finset.sum_congr rfl (fun i _ => Finset.sum_congr rfl (fun j _ => ?_))
  ring

/-- The SSIM formula is symmetric in its two image arguments. -/
theorem ssim_comm (h w : Nat) (f g : Nat → Nat → ℚ) :
    ssim h w f g = ssim h w g f := by
  unfold ssim pixVar
  rw [pixCov_comm h w f g]
  ring_nf

theorem pixVar_nonneg (h w : Nat) (f : Nat → Nat → ℚ) : 0 ≤ pixVar h w f := by
  unfold pixVar pixCov pixSum
  apply div_nonneg _ (npix_nonneg h w)
  refine Finset.sum_nonneg (fun i _ => Finset.sum_nonneg (fun j _ => ?_))
  exact mul_self_nonneg _

theorem ssimC1_pos : (0 : ℚ) < ssimC1 := by norm_num [ssimC1]

theorem ssimC2_pos : (0 : ℚ) < ssimC2 := by norm_num [ssimC2]

theorem abs_two_mul_prod_le (x y : ℚ) : |2 * (x * y)| ≤ x * x + y * y := by
  rw [abs_le]
  constructor
  · nlinarith [sq_nonneg (x + y)]
  · nlinarith [sq_nonneg (x - y)]

theorem abs_two_mul_pixSum_le (h w : Nat) (a b : Nat → Nat → ℚ) :
    |2 * pixSum h w (fun i j => a i j * b i j)| ≤
      pixSum h w (fun i j => a i j * a i j) + pixSum h w (fun i j => b i j * b i j) := by
  unfold pixSum
  rw [Finset.mul_sum, ← Finset.sum_add_distrib]
  calc |∑ i ∈ Finset.range h, 2 * ∑ j ∈ Finset.range w, a i j * b i j|
      ≤ ∑ i ∈ Finset.range h, |2 * ∑ j ∈ Finset.range w, a i j * b i j| :=
        Finset.abs_sum_le_sum_abs _ _
    _ ≤ ∑ i ∈ Finset.range h,
          ((∑ j ∈ Finset.range w, a i j * a i j) + ∑ j ∈ Finset.range w, b i j * b i j) := by
        refine Finset.sum_le_sum (fun i _ => ?_)
        rw [Finset.mul_sum, ← Finset.sum_add_distrib]
        calc |∑ j ∈ Finset.range w, 2 * (a i j * b i j)|
            ≤ ∑ j ∈ Finset.range w, |2 * (a i j * b i j)| := Finset.abs_sum_le_sum_abs _ _
          _ ≤ ∑ j ∈ Finset.range w, (a i j * a i j + b i j * b i j) :=
              Finset.sum_le_sum (fun j _ => abs_two_mul_prod_le _ _)

theorem abs_two_mul_cov_le (h w : Nat) (f g : Nat → Nat → ℚ) :
    |2 * pixCov h w f g| ≤ pixVar h w f + pixVar h w g := by
  unfold pixVar pixCov
  rw [div_add_div_same, ← mul_div_assoc, abs_div, abs_of_nonneg (npix_nonneg h w),
    div_eq_mul_inv, div_eq_mul_inv]
  exact mul_le_mul_of_nonneg_right (abs_two_mul_pixSum_le h w _ _)
    (inv_nonneg.2 (npix_nonneg h w))

theorem abs_mean_num_le (m₁ m₂ : ℚ) :
    |2 * m₁ * m₂ + ssimC1| ≤ m₁ ^ 2 + m₂ ^ 2 + ssimC1 := by
  have h1 := ssimC1_pos
  rw [abs_le]
  constructor
  · nlinarith [sq_nonneg (m₁ + m₂)]
  · nlinarith [sq_nonneg (m₁ - m₂)]

theorem abs_cov_num_le (h w : Nat) (f g : Nat → Nat → ℚ) :
    |2 * pixCov h w f g + ssimC2| ≤ pixVar h w f + pixVar h w g + ssimC2 := by
  calc |2 * pixCov h w f g + ssimC2| ≤ |2 * pixCov h w f g| + |ssimC2| := abs_add _ _
    _ = |2 * pixCov h w f g| + ssimC2 := by rw [abs_of_pos ssimC2_pos]
    _ ≤ pixVar h w f + pixVar h w g + ssimC2 := by
        have := abs_two_mul_cov_le h w f g
        linarith

theorem ssim_denom_left_pos (h w : Nat) (f g : Nat → Nat → ℚ) :
    0 < pixMean h w f ^ 2 + pixMean h w g ^ 2 + ssimC1 := by
  have := ssimC1_pos
  nlinarith [sq_nonneg (pixMean h w f), sq_nonneg (pixMean h w g)]

theorem ssim_denom_right_pos (h w : Nat) (f g : Nat → Nat → ℚ) :
    0 < pixVar h w f + pixVar h w g + ssimC2 := by
  have h1 := pixVar_nonneg h w f
  have h2 := pixVar_nonneg h w g
  have h3 := ssimC2_pos
  linarith

/-- The modelled SSIM value always lies in `[-1, 1]`. -/
theorem abs_ssim_le_one (h w : Nat) (f g : Nat → Nat → ℚ) :
    |ssim h w f g| ≤ 1 := by
  unfold ssim
  have hA := ssim_denom_left_pos h w f g
  have hB := ssim_denom_right_pos h w f g
  rw [abs_div, abs_of_pos (mul_pos hA hB), div_le_one (mul_pos hA hB), abs_mul]
  exact mul_le_mul (abs_mean_num_le _ _) (abs_cov_num_le h w f g) (abs_nonneg _) hA.le

theorem ssim_le_one (h w : Nat) (f g : Nat → Nat → ℚ) : ssim h w f g ≤ 1 :=
  (abs_le.1 (abs_ssim_le_one h w f g)).2

/-! ### Theorems: frame similarity -/

/-- The clamped similarity is never negative (`max(0.0, similarity)` at
`video_processor.py:99`). -/
theorem calculate_frame_similarity_nonneg (f1 f2 : Frame) :
    0 ≤ calculate_frame_similarity f1 f2 :=
  le_max_left 0 _

/-- The clamped similarity never exceeds `1`. -/
theorem calculate_frame_similarity_le_one (f1 f2 : Frame) :
    calculate_frame_similarity f1 f2 ≤ 1 := by
  unfold calculate_frame_similarity
  exact max_le (by norm_num) (ssim_le_one _ _ _ _)

/-- C10: `calculate_frame_similarity` is symmetric in its two arguments:
both inputs are converted to luminance, resized to the same common
intersection size (min height, min width), compared with the symmetric
structural-similarity index, and identically clamped. -/
theorem claim_C10 (f1 f2 : Frame) :
    calculate_frame_similarity f1 f2 = calculate_frame_similarity f2 f1 := by
  simp only [calculate_frame_similarity]
  rw [min_comm (rgb2gray f2).h (rgb2gray f1).h, min_comm (rgb2gray f2).w (rgb2gray f1).w,
    ssim_comm]

/-- C3: the fixed-position ("deterministic bridge") selection policy
(modelled from the spec, since it exists nowhere under `src/`) always
selects video A's second-to-last frame (`totalFramesA - 2`) and video B's
second frame (index 1) for every pair of input videos, and the computed
SimilarityScore is for reporting only: the selected indices are the same
whatever the frames at those positions contain. -/
theorem claim_C3 (vA vB vA' vB' : Video) (htot : vA.total = vA'.total) :
    (fixedPositionSelect vA vB).1 = vA.total - 2 ∧
      (fixedPositionSelect vA vB).2.1 = 1 ∧
      ((fixedPositionSelect vA vB).1, (fixedPositionSelect vA vB).2.1) =
        ((fixedPositionSelect vA' vB').1, (fixedPositionSelect vA' vB').2.1) := by
  refine ⟨rfl, rfl, ?_⟩
  simp only [fixedPositionSelect, htot]

/-- C3 witness: the fixed-position policy applied at concrete inputs. -/
theorem claim_C3_witness :
    (wholeVideo 10).total = (wholeVideo 10).total ∧
      ((fixedPositionSelect (wholeVideo 10) (wholeVideo 5)).1 = (wholeVideo 10).total - 2 ∧
        (fixedPositionSelect (wholeVideo 10) (wholeVideo 5)).2.1 = 1 ∧
        ((fixedPositionSelect (wholeVideo 10) (wholeVideo 5)).1,
            (fixedPositionSelect (wholeVideo 10) (wholeVideo 5)).2.1) =
          ((fixedPositionSelect (wholeVideo 10) (noDecodeVideo)).1,
            (fixedPositionSelect (wholeVideo 10) (noDecodeVideo)).2.1)) :=
  ⟨rfl, claim_C3 (wholeVideo 10) (wholeVideo 5) (wholeVideo 10) noDecodeVideo rfl⟩

/-! ### Theorems: sample index computation -/

theorem natFloor_cast_div (a b : Nat) : ⌊((a : Nat) : ℚ) / ((b : Nat) : ℚ)⌋₊ = a / b := by
  rw [Nat.floor_div_nat, Nat.floor_natCast]

/-- In the branch `num ≥ 2`, the truncated linspace values are exactly
truncating natural division of `i * (total - 1)` by `num - 1`. -/
theorem frameIndices_eq_map (total num : Nat) (h2 : 2 ≤ num) :
    frameIndices total num = (List.range num).map (fun i => i * (total - 1) / (num - 1)) := by
  unfold frameIndices
  rw [if_neg (by omega), if_neg (by omega)]
  exact List.map_congr_left (fun i _ => natFloor_cast_div (i * (total - 1)) (num - 1))

theorem frameIndices_length (total num : Nat) : (frameIndices total num).length = num := by
  unfold frameIndices
  rcases Nat.eq_zero_or_pos num with h0 | h0
  · simp [h0]
  · rcases Nat.lt_or_ge num 2 with h1 | h1
    · have : num = 1 := by omega
      simp [this]
    · rw [if_neg (by omega), if_neg (by omega)]
      simp

theorem frameIndices_lt_total (total num : Nat) (ht : 1 ≤ total) :
    ∀ x ∈ frameIndices total num, x < total := by
  intro x hx
  unfold frameIndices at hx
  rcases Nat.eq_zero_or_pos num with h0 | h0
  · simp [h0] at hx
  · rcases Nat.lt_or_ge num 2 with h1 | h1
    · have hn : num = 1 := by omega
      simp [hn] at hx
      omega
    · rw [if_neg (by omega), if_neg (by omega)] at hx
      obtain ⟨i, hi, rfl⟩ := List.mem_map.1 hx
      rw [natFloor_cast_div]
      have hi' : i ≤ num - 1 := by
        have := List.mem_range.1 hi
        omega
      have hmul : i * (total - 1) ≤ (num - 1) * (total - 1) :=
        Nat.mul_le_mul_right _ hi'
      have hdiv : i * (total - 1) / (num - 1) ≤ (num - 1) * (total - 1) / (num - 1) :=
        Nat.div_le_div_right hmul
      rw [Nat.mul_div_cancel_left _ (by omega : 0 < num - 1)] at hdiv
      omega

theorem frameIndices_pairwise (total num : Nat) (h2 : 2 ≤ num) (hle : num ≤ total) :
    List.Pairwise (· < ·) (frameIndices total num) := by
  rw [frameIndices_eq_map total num h2]
  refine List.Pairwise.map _ ?_ (List.pairwise_lt_range num)
  intro a b hab
  have hstep : (num - 1) ≤ (total - 1) := by omega
  have hb : a * (total - 1) + (num - 1) ≤ b * (total - 1) := by
    have : (a + 1) * (total - 1) ≤ b * (total - 1) :=
      Nat.mul_le_mul_right _ (by omega)
    nlinarith [Nat.sub_le total 1]
  have h1 : (a * (total - 1) + (num - 1)) / (num - 1) ≤ b * (total - 1) / (num - 1) :=
    Nat.div_le_div_right hb
  rw [Nat.add_div_right _ (by omega : 0 < num - 1)] at h1
  omega

theorem frameIndices_head (total num : Nat) (h2 : 2 ≤ num) :
    (frameIndices total num).head? = some 0 := by
  rw [frameIndices_eq_map total num h2]
  obtain ⟨k, rfl⟩ : ∃ k, num = k + 2 := ⟨num - 2, by omega⟩
  rw [List.range_succ_eq_map]
  simp

theorem frameIndices_getLast (total num : Nat) (h2 : 2 ≤ num) :
    (frameIndices total num).getLast? = some (total - 1) := by
  rw [frameIndices_eq_map total num h2]
  obtain ⟨k, rfl⟩ : ∃ k, num = k + 1 := ⟨num - 1, by omega⟩
  rw [List.range_succ, List.map_append]
  simp only [List.map_cons, List.map_nil, List.getLast?_concat, Nat.add_sub_cancel]
  rw [Nat.mul_div_cancel_left _ (by omega : 0 < k)]

/-! ### Theorems: frame extraction -/

theorem filterMap_decode_fst (v : Video) (idxs : List Nat)
    (h : ∀ x ∈ idxs, (v.decode x).isSome = true) :
    (idxs.filterMap (fun idx => (v.decode idx).map (fun f => (idx, f)))).map Prod.fst
      = idxs := by
  induction idxs with
  | nil => rfl
  | cons a t ih =>
    obtain ⟨f, hf⟩ := Option.isSome_iff_exists.1 (h a (List.mem_cons_self a t))
    rw [List.filterMap_cons]
    simp only [hf, Option.map_some']
    rw [List.map_cons, ih (fun x hx => h x (List.mem_cons_of_mem a hx))]

/-- Successful extraction with all decodes succeeding: the returned
entries' indices are exactly the sample indices. -/
theorem extract_frames_fst (v : Video) (num : Nat) (hop : v.opened = true)
    (ht : 1 ≤ v.total) (hdec : ∀ i, i < v.total → (v.decode i).isSome = true) :
    ∃ l, extract_frames v num = .ok l ∧ l.map Prod.fst = frameIndices v.total num := by
  have hrun : extract_frames v num = .ok ((frameIndices v.total num).filterMap
      (fun idx => (v.decode idx).map (fun f => (idx, f)))) := by
    unfold extract_frames
    rw [hop, if_neg (by simp), if_neg (by omega)]
  exact ⟨_, hrun,
    filterMap_decode_fst v _ (fun x hx => hdec x (frameIndices_lt_total _ _ ht x hx))⟩

/-- Helper: every in-range position of a `wholeVideo` decodes. -/
theorem wholeVideo_decode (n i : Nat) (h : i < n) :
    ((wholeVideo n).decode i).isSome = true := by
  unfold wholeVideo Video.decode
  rw [List.getD_eq_getElem?_getD]
  simp [List.getElem?_replicate, h]

/-- C4 (amended): `extract` computes its sample indices as `count` values
evenly spaced inclusively across `[0, totalFrames-1]`, each truncated
toward zero (floor) by the integer cast — not rounded to the nearest
integer.  For `count ≥ 2` the `i`-th index is `⌊i·(total-1)/(count-1)⌋`,
i.e. truncating natural division. -/
theorem claim_C4 (v : Video) (num : Nat) (hop : v.opened = true) (ht : 1 ≤ v.total)
    (h2 : 2 ≤ num) (hdec : ∀ i, i < v.total → (v.decode i).isSome = true) :
    ∃ l, extract_frames v num = .ok l ∧
      l.map Prod.fst = (List.range num).map (fun i => i * (v.total - 1) / (num - 1)) := by
  obtain ⟨l, hl, hfst⟩ := extract_frames_fst v num hop ht hdec
  exact ⟨l, hl, by rw [hfst, frameIndices_eq_map _ _ h2]⟩

/-- C4 counterexample: for a 9-frame video sampled at count 4, the code's
truncated indices are `[0, 2, 5, 8]`, while the spec's
rounded-to-nearest indices would be `[0, 3, 5, 8]` (the second value is
`8/3 ≈ 2.67`, which truncates to 2 but rounds to 3). -/
theorem claim_C4_counterexample :
    frameIndices 9 4 = [0, 2, 5, 8] ∧ specRoundIndices 9 4 = [0, 3, 5, 8] ∧
      frameIndices 9 4 ≠ specRoundIndices 9 4 ∧
      (extract_frames (wholeVideo 9) 4).toOption.map (fun l => l.map Prod.fst)
        = some [0, 2, 5, 8] := by
  refine ⟨?_, ?_, ?_, ?_⟩
  · with_unfolding_all rfl
  · with_unfolding_all rfl
  · with_unfolding_all decide
  · with_unfolding_all rfl

/-- C4 witness: the amended theorem applied to a concrete 9-frame video
with count 4. -/
theorem claim_C4_witness :
    ((wholeVideo 9).opened = true ∧ 1 ≤ (wholeVideo 9).total ∧ (2 : Nat) ≤ 4 ∧
      ∀ i, i < (wholeVideo 9).total → (((wholeVideo 9)).decode i).isSome = true) ∧
    ∃ l, extract_frames (wholeVideo 9) 4 = .ok l ∧
      l.map Prod.fst = (List.range 4).map (fun i => i * ((wholeVideo 9).total - 1) / 3) :=
  ⟨⟨rfl, by norm_num [wholeVideo], by norm_num,
      fun i hi => wholeVideo_decode 9 i hi⟩,
    claim_C4 (wholeVideo 9) 4 rfl (by norm_num [wholeVideo]) (by norm_num)
      (fun i hi => wholeVideo_decode 9 i hi)⟩

/-- C8 (amended: the requested count must satisfy `2 ≤ c`; for `c = 1` the
single sample has index 0 and does not reach `T-1` when `T > 1`): for
every video with `T` total frames and `2 ≤ c ≤ T`, when every frame
decode succeeds, `extract` returns exactly `c` entries whose frame
indices are strictly increasing, with first index 0 and last index
`T-1`. -/
theorem claim_C8 (v : Video) (c : Nat) (hop : v.opened = true) (h2 : 2 ≤ c)
    (hcT : c ≤ v.total) (hdec : ∀ i, i < v.total → (v.decode i).isSome = true) :
    ∃ l, extract_frames v c = .ok l ∧ l.length = c ∧
      List.Pairwise (· < ·) (l.map Prod.fst) ∧
      (l.map Prod.fst).head? = some 0 ∧
      (l.map Prod.fst).getLast? = some (v.total - 1) := by
  have ht : 1 ≤ v.total := by omega
  obtain ⟨l, hl, hfst⟩ := extract_frames_fst v c hop ht hdec
  refine ⟨l, hl, ?_, ?_, ?_, ?_⟩
  · have := congrArg List.length hfst
    rw [List.length_map, frameIndices_length] at this
    exact this
  · rw [hfst]
    exact frameIndices_pairwise _ _ h2 hcT
  · rw [hfst]
    exact frameIndices_head _ _ h2
  · rw [hfst]
    exact frameIndices_getLast _ _ h2

/-- C8 counterexample: the claim quantifies over every requested count
`c ≤ T`; at `c = 1`, `T = 3` (all decodes succeeding) `extract` returns
the single entry with index 0, whose last index 0 is not `T - 1 = 2`. -/
theorem claim_C8_counterexample :
    extract_frames (wholeVideo 3) 1 = .ok [(0, zFrame)] ∧
      ([(0, zFrame)].map Prod.fst).getLast? ≠ some ((wholeVideo 3).total - 1) := by
  constructor
  · with_unfolding_all rfl
  · with_unfolding_all decide

/-- C8 witness: the amended theorem applied to a concrete 5-frame video
with count 3. -/
theorem claim_C8_witness :
    ((wholeVideo 5).opened = true ∧ (2 : Nat) ≤ 3 ∧ 3 ≤ (wholeVideo 5).total ∧
      ∀ i, i < (wholeVideo 5).total → (((wholeVideo 5)).decode i).isSome = true) ∧
    ∃ l, extract_frames (wholeVideo 5) 3 = .ok l ∧ l.length = 3 ∧
      List.Pairwise (· < ·) (l.map Prod.fst) ∧
      (l.map Prod.fst).head? = some 0 ∧
      (l.map Prod.fst).getLast? = some ((wholeVideo 5).total - 1) :=
  ⟨⟨rfl, by norm_num, by norm_num [wholeVideo], fun i hi => wholeVideo_decode 5 i hi⟩,
    claim_C8 (wholeVideo 5) 3 rfl (by norm_num) (by norm_num [wholeVideo])
      (fun i hi => wholeVideo_decode 5 i hi)⟩

/-! ### Theorems: the exhaustive search fold -/

theorem scoreOf_nonneg (c : (Nat × Frame) × (Nat × Frame)) : 0 ≤ scoreOf c :=
  calculate_frame_similarity_nonneg _ _

theorem scoreOf_le_one (c : (Nat × Frame) × (Nat × Frame)) : scoreOf c ≤ 1 :=
  calculate_frame_similarity_le_one _ _

theorem searchFold_init_le (l : List ((Nat × Frame) × (Nat × Frame))) (st0 : SearchState) :
    st0.best_similarity ≤ (l.foldl searchStep st0).best_similarity := by
  induction l generalizing st0 with
  | nil => exact le_refl _
  | cons a t ih =>
    rw [List.foldl_cons]
    refine le_trans ?_ (ih (searchStep st0 a))
    unfold searchStep
    split
    · next h => exact le_of_lt h
    · exact le_refl _

theorem searchFold_mem_le (l : List ((Nat × Frame) × (Nat × Frame))) (st0 : SearchState) :
    ∀ c ∈ l, scoreOf c ≤ (l.foldl searchStep st0).best_similarity := by
  induction l generalizing st0 with
  | nil => intro c hc; simp at hc
  | cons a t ih =>
    intro c hc
    rw [List.foldl_cons]
    rcases List.mem_cons.1 hc with rfl | hct
    · refine le_trans ?_ (searchFold_init_le t (searchStep st0 c))
      unfold searchStep
      split
      · exact le_refl _
      · next h => exact not_lt.1 h
    · exact ih (searchStep st0 a) c hct

/-- Full characterisation of the strict-improvement fold: either no
candidate ever beat the initial best and the state is returned unchanged,
or the result is built from the candidate at some position `i`, every
candidate before `i` scores strictly below it, and it strictly beats the
initial best. -/
theorem searchFold_spec (l : List ((Nat × Frame) × (Nat × Frame))) (st0 : SearchState) :
    l.foldl searchStep st0 = st0 ∨
      ∃ i, ∃ hi : i < l.length,
        l.foldl searchStep st0 =
          ⟨scoreOf (l.get ⟨i, hi⟩), some (l.get ⟨i, hi⟩).1.2, some (l.get ⟨i, hi⟩).2.2,
            ((l.get ⟨i, hi⟩).1.1, (l.get ⟨i, hi⟩).2.1)⟩ ∧
        st0.best_similarity < scoreOf (l.get ⟨i, hi⟩) ∧
        ∀ j, ∀ hj : j < i, scoreOf (l.get ⟨j, lt_trans hj hi⟩) < scoreOf (l.get ⟨i, hi⟩) := by
  induction l generalizing st0 with
  | nil => exact Or.inl rfl
  | cons a t ih =>
    rw [List.foldl_cons]
    by_cases hupd : st0.best_similarity < scoreOf a
    · have hstep : searchStep st0 a = ⟨scoreOf a, some a.1.2, some a.2.2, (a.1.1, a.2.1)⟩ := by
        unfold searchStep
        rw [if_pos hupd]
      rw [hstep]
      rcases ih ⟨scoreOf a, some a.1.2, some a.2.2, (a.1.1, a.2.1)⟩ with hL | ⟨i, hi, hR, hgt, hfirst⟩
      · right
        refine ⟨0, Nat.succ_pos _, ?_, hupd, ?_⟩
        · exact hL
        · intro j hj
          exact absurd hj (Nat.not_lt_zero j)
      · right
        refine ⟨i + 1, Nat.succ_lt_succ hi, hR, lt_trans hupd hgt, ?_⟩
        intro j hj
        cases j with
        | zero => exact hgt
        | succ j => exact hfirst j (Nat.lt_of_succ_lt_succ hj)
    · have hstep : searchStep st0 a = st0 := by
        unfold searchStep
        rw [if_neg hupd]
      rw [hstep]
      rcases ih st0 with hL | ⟨i, hi, hR, hgt, hfirst⟩
      · exact Or.inl hL
      · right
        refine ⟨i + 1, Nat.succ_lt_succ hi, hR, hgt, ?_⟩
        intro j hj
        cases j with
        | zero => exact lt_of_le_of_lt (not_lt.1 hupd) hgt
        | succ j => exact hfirst j (Nat.lt_of_succ_lt_succ hj)

/-- Reduction of `find_best_connection_frames` when both extractions
succeed: the result is the strict-improvement fold over the candidate
sequence. -/
theorem find_best_eq (p : Processor) (v1 v2 : Video) (fr1 fr2 : List (Nat × Frame))
    (h1 : extract_frames v1 30 = .ok fr1) (h2 : extract_frames v2 10 = .ok fr2) :
    find_best_connection_frames p v1 v2 =
      .ok ((candidate_pairs (edgeFilter p fr1) ((edgeFilter p fr2).take 3)).foldl
        searchStep searchInit) := by
  unfold find_best_connection_frames
  rw [h1, h2]
  rfl

/-- C6: in exhaustive search, the returned indices attain the maximum
SimilarityScore over all pairs in targetSet × filteredA, and among pairs
attaining that maximum, the one encountered first in iteration order
(target-set frames outer, A's filtered frames inner) is returned, because
the running maximum is updated only on strict greater-than. -/
theorem claim_C6 (p : Processor) (v1 v2 : Video) (fr1 fr2 : List (Nat × Frame))
    (h1 : extract_frames v1 30 = .ok fr1) (h2 : extract_frames v2 10 = .ok fr2)
    (hne : candidate_pairs (edgeFilter p fr1) ((edgeFilter p fr2).take 3) ≠ []) :
    ∃ st, find_best_connection_frames p v1 v2 = .ok st ∧
      ∃ i, ∃ hi : i < (candidate_pairs (edgeFilter p fr1) ((edgeFilter p fr2).take 3)).length,
        st.best_indices =
          (((candidate_pairs (edgeFilter p fr1) ((edgeFilter p fr2).take 3)).get ⟨i, hi⟩).1.1,
            ((candidate_pairs (edgeFilter p fr1) ((edgeFilter p fr2).take 3)).get ⟨i, hi⟩).2.1) ∧
        st.best_similarity =
          scoreOf ((candidate_pairs (edgeFilter p fr1) ((edgeFilter p fr2).take 3)).get ⟨i, hi⟩) ∧
        (∀ c ∈ candidate_pairs (edgeFilter p fr1) ((edgeFilter p fr2).take 3),
          scoreOf c ≤ st.best_similarity) ∧
        ∀ j, ∀ hj : j < i,
          scoreOf ((candidate_pairs (edgeFilter p fr1) ((edgeFilter p fr2).take 3)).get
            ⟨j, lt_trans hj hi⟩) < st.best_similarity := by
  have hfb := find_best_eq p v1 v2 fr1 fr2 h1 h2
  rcases searchFold_spec (candidate_pairs (edgeFilter p fr1) ((edgeFilter p fr2).take 3))
      searchInit with hL | ⟨i, hi, hR, _, hfirst⟩
  · exfalso
    obtain ⟨c, hc⟩ := List.exists_mem_of_ne_nil _ hne
    have hle := searchFold_mem_le
      (candidate_pairs (edgeFilter p fr1) ((edgeFilter p fr2).take 3)) searchInit c hc
    rw [hL] at hle
    have := scoreOf_nonneg c
    have hinit : searchInit.best_similarity = -1 := rfl
    rw [hinit] at hle
    linarith
  · refine ⟨_, hfb, i, hi, ?_, ?_, ?_, ?_⟩
    · rw [hR]
    · rw [hR]
    · exact fun c hc => searchFold_mem_le _ searchInit c hc
    · intro j hj
      rw [hR]
      exact hfirst j hj

/-- C6 witness: a concrete search with exactly one candidate pair. -/
theorem claim_C6_witness :
    (extract_frames sparseVideo 30 = .ok [(0, zFrame)] ∧
      extract_frames sparseVideo 10 = .ok [(0, zFrame)] ∧
      candidate_pairs (edgeFilter defaultProcessor [(0, zFrame)])
        ((edgeFilter defaultProcessor [(0, zFrame)]).take 3) ≠ []) ∧
    (∃ st, find_best_connection_frames defaultProcessor sparseVideo sparseVideo = .ok st ∧
      ∃ i, ∃ hi : i < (candidate_pairs (edgeFilter defaultProcessor [(0, zFrame)])
          ((edgeFilter defaultProcessor [(0, zFrame)]).take 3)).length,
        st.best_indices =
          (((candidate_pairs (edgeFilter defaultProcessor [(0, zFrame)])
              ((edgeFilter defaultProcessor [(0, zFrame)]).take 3)).get ⟨i, hi⟩).1.1,
            ((candidate_pairs (edgeFilter defaultProcessor [(0, zFrame)])
              ((edgeFilter defaultProcessor [(0, zFrame)]).take 3)).get ⟨i, hi⟩).2.1) ∧
        st.best_similarity =
          scoreOf ((candidate_pairs (edgeFilter defaultProcessor [(0, zFrame)])
            ((edgeFilter defaultProcessor [(0, zFrame)]).take 3)).get ⟨i, hi⟩) ∧
        (∀ c ∈ candidate_pairs (edgeFilter defaultProcessor [(0, zFrame)])
            ((edgeFilter defaultProcessor [(0, zFrame)]).take 3),
          scoreOf c ≤ st.best_similarity) ∧
        ∀ j, ∀ hj : j < i,
          scoreOf ((candidate_pairs (edgeFilter defaultProcessor [(0, zFrame)])
            ((edgeFilter defaultProcessor [(0, zFrame)]).take 3)).get
              ⟨j, lt_trans hj hi⟩) < st.best_similarity) :=
  ⟨⟨by with_unfolding_all rfl, by with_unfolding_all rfl,
      by with_unfolding_all exact List.cons_ne_nil _ _⟩,
    claim_C6 defaultProcessor sparseVideo sparseVideo [(0, zFrame)] [(0, zFrame)]
      (by with_unfolding_all rfl) (by with_unfolding_all rfl)
      (by with_unfolding_all exact List.cons_ne_nil _ _)⟩

/-- C5 (amended): whenever at least one comparison is performed (the
candidate sequence after filtering is nonempty), the ConnectionResult's
SimilarityScore lies in `[0.0, 1.0]` (negative raw metric values are
clamped to 0.0 inside `calculate_frame_similarity`); when no comparison
is performed the loop never updates and the sentinel `-1` initial value
is returned with no error, violating the range. -/
theorem claim_C5 (p : Processor) (v1 v2 : Video) (fr1 fr2 : List (Nat × Frame))
    (h1 : extract_frames v1 30 = .ok fr1) (h2 : extract_frames v2 10 = .ok fr2)
    (hne : candidate_pairs (edgeFilter p fr1) ((edgeFilter p fr2).take 3) ≠ []) :
    ∃ st, find_best_connection_frames p v1 v2 = .ok st ∧
      0 ≤ st.best_similarity ∧ st.best_similarity ≤ 1 := by
  have hfb := find_best_eq p v1 v2 fr1 fr2 h1 h2
  rcases searchFold_spec (candidate_pairs (edgeFilter p fr1) ((edgeFilter p fr2).take 3))
      searchInit with hL | ⟨i, hi, hR, _, _⟩
  · exfalso
    obtain ⟨c, hc⟩ := List.exists_mem_of_ne_nil _ hne
    have hle := searchFold_mem_le
      (candidate_pairs (edgeFilter p fr1) ((edgeFilter p fr2).take 3)) searchInit c hc
    rw [hL] at hle
    have := scoreOf_nonneg c
    have hinit : searchInit.best_similarity = -1 := rfl
    rw [hinit] at hle
    linarith
  · refine ⟨_, hfb, ?_, ?_⟩
    · rw [hR]
      exact scoreOf_nonneg _
    · rw [hR]
      exact scoreOf_le_one _

/-- C5 counterexample: a pair of openable videos (nonzero reported frame
counts) for which every decode of the first video fails; extraction
succeeds with an empty sample list, no comparison is performed, and the
invocation returns the sentinel score `-1`, outside `[0.0, 1.0]`, with no
error. -/
theorem claim_C5_counterexample :
    find_best_connection_frames defaultProcessor noDecodeVideo (wholeVideo 10) =
      .ok searchInit ∧ searchInit.best_similarity = -1 ∧ ¬ (0 ≤ (-1 : ℚ)) := by
  refine ⟨?_, rfl, by norm_num⟩
  with_unfolding_all rfl

/-- C5 witness: the amended theorem applied at a concrete one-candidate
search. -/
theorem claim_C5_witness :
    (extract_frames sparseVideo 30 = .ok [(0, zFrame)] ∧
      extract_frames sparseVideo 10 = .ok [(0, zFrame)] ∧
      candidate_pairs (edgeFilter defaultProcessor [(0, zFrame)])
        ((edgeFilter defaultProcessor [(0, zFrame)]).take 3) ≠ []) ∧
    (∃ st, find_best_connection_frames defaultProcessor sparseVideo sparseVideo = .ok st ∧
      0 ≤ st.best_similarity ∧ st.best_similarity ≤ 1) :=
  ⟨⟨by with_unfolding_all rfl, by with_unfolding_all rfl,
      by with_unfolding_all exact List.cons_ne_nil _ _⟩,
    claim_C5 defaultProcessor sparseVideo sparseVideo [(0, zFrame)] [(0, zFrame)]
      (by with_unfolding_all rfl) (by with_unfolding_all rfl)
      (by with_unfolding_all exact List.cons_ne_nil _ _)⟩

/-! ### Theorems: video splicing -/

/-- On a fully decodable stream, sequential reading from `start` with
budget `n` yields exactly the `n`-frame window at `start`. -/
theorem readFramesFrom_map_some (v : Video) (l : List Frame) (hs : v.stream = l.map some) :
    ∀ n start, readFramesFrom v start n = (l.drop start).take n := by
  intro n
  induction n with
  | zero => intro start; rfl
  | succ n ih =>
    intro start
    have hdec : v.decode start = l[start]? := by
      unfold Video.decode
      rw [hs, List.getD_eq_getElem?_getD, List.getElem?_map]
      cases l[start]? <;> rfl
    rcases Nat.lt_or_ge start l.length with hlt | hge
    · have hf : l[start]? = some (l.get ⟨start, hlt⟩) := List.getElem?_eq_getElem hlt
      unfold readFramesFrom
      rw [hdec, hf, List.drop_eq_getElem_cons hlt, List.take_succ_cons, ih (start + 1)]
      rfl
    · have hnone : l[start]? = none := List.getElem?_eq_none hge
      unfold readFramesFrom
      rw [hdec, hnone, List.drop_eq_nil_of_le hge]
      rfl

/-- Reduction of `create_merged_video` on openable, fully decodable
sources: the output content is video 1's first `cut1 + 1` frames followed
by video 2's frames from `cut2` on, the latter resized when their
dimensions differ from video 1's. -/
theorem create_merged_video_eq (v1 v2 : Video) (l1 l2 : List Frame) (cut1 cut2 : Nat)
    (ho1 : v1.opened = true) (ho2 : v2.opened = true)
    (hs1 : v1.stream = l1.map some) (hs2 : v2.stream = l2.map some) :
    create_merged_video v1 v2 cut1 cut2 =
      .ok (l1.take (cut1 + 1) ++ (l2.drop cut2).map
        (fun f => if (f.h, f.w) ≠ (v1.height, v1.width) then resizeFrame f v1.height v1.width
          else f)) := by
  unfold create_merged_video
  rw [ho1, ho2, if_neg (by simp), if_neg (by simp)]
  rw [readFramesFrom_map_some v1 l1 hs1, readFramesFrom_map_some v2 l2 hs2,
    List.drop_zero, hs2, List.length_map,
    List.take_of_length_le (le_of_eq (List.length_drop cut2 l2))]

/-- C7: for all openable videos A (with at least `cutA + 1` decodable
frames) and B (fully decodable, `totalB` frames) and all
`cutB < totalB`, `merge` writes exactly `(cutA+1) + (totalB - cutB)`
frames: frames `0..cutA` of A in order, then frames `cutB..totalB-1` of B
in order, each B frame resized to A's dimensions when they differ. -/
theorem claim_C7 (v1 v2 : Video) (l1 l2 : List Frame) (cut1 cut2 : Nat)
    (ho1 : v1.opened = true) (ho2 : v2.opened = true)
    (hs1 : v1.stream = l1.map some) (hs2 : v2.stream = l2.map some)
    (hlen : cut1 + 1 ≤ l1.length) (hcut2 : cut2 < l2.length) :
    ∃ out, create_merged_video v1 v2 cut1 cut2 = .ok out ∧
      out = l1.take (cut1 + 1) ++ (l2.drop cut2).map
        (fun f => if (f.h, f.w) ≠ (v1.height, v1.width) then resizeFrame f v1.height v1.width
          else f) ∧
      out.length = (cut1 + 1) + (l2.length - cut2) := by
  refine ⟨_, create_merged_video_eq v1 v2 l1 l2 cut1 cut2 ho1 ho2 hs1 hs2, rfl, ?_⟩
  rw [List.length_append, List.length_take, List.length_map, List.length_drop,
    Nat.min_eq_left hlen]

/-- C7 witness: merging a 10-frame and an 8-frame source with
`cutA = 4`, `cutB = 2` produces exactly `(4+1) + (8-2) = 11` frames. -/
theorem claim_C7_witness :
    ((wholeVideo 10).opened = true ∧ (wholeVideo 8).opened = true ∧
      (wholeVideo 10).stream = (List.replicate 10 zFrame).map some ∧
      (wholeVideo 8).stream = (List.replicate 8 zFrame).map some ∧
      4 + 1 ≤ (List.replicate 10 zFrame).length ∧ 2 < (List.replicate 8 zFrame).length) ∧
    ∃ out, create_merged_video (wholeVideo 10) (wholeVideo 8) 4 2 = .ok out ∧
      out = (List.replicate 10 zFrame).take (4 + 1) ++
        ((List.replicate 8 zFrame).drop 2).map
          (fun f => if (f.h, f.w) ≠ ((wholeVideo 10).height, (wholeVideo 10).width)
            then resizeFrame f (wholeVideo 10).height (wholeVideo 10).width else f) ∧
      out.length = (4 + 1) + ((List.replicate 8 zFrame).length - 2) :=
  ⟨⟨rfl, rfl, by with_unfolding_all rfl, by with_unfolding_all rfl,
      by norm_num, by norm_num⟩,
    claim_C7 (wholeVideo 10) (wholeVideo 8) (List.replicate 10 zFrame)
      (List.replicate 8 zFrame) 4 2 rfl rfl (by with_unfolding_all rfl)
      (by with_unfolding_all rfl) (by norm_num) (by norm_num)⟩

/-! ### Theorems: file-system operations -/

theorem find?_key_filter_ne (l : List (FPath × Video)) (p q : FPath) (h : q ≠ p) :
    (l.filter (fun e => e.1 ≠ p)).find? (fun e => e.1 = q) =
      l.find? (fun e => e.1 = q) := by
  induction l with
  | nil => rfl
  | cons a t ih =>
    rw [List.filter_cons]
    by_cases ha : a.1 = p
    · rw [if_neg (by simp [ha]), ih, List.find?_cons]
      have h2 : (decide (a.1 = q)) = false := by
        simp only [decide_eq_false_iff_not]
        exact fun hh => h (hh.symm.trans ha)
      rw [h2]
    · rw [if_pos (by simp [ha]), List.find?_cons, List.find?_cons]
      by_cases hq : a.1 = q
      · rw [show (decide (a.1 = q)) = true by simp [hq]]
      · rw [show (decide (a.1 = q)) = false by simp [hq]]
        exact ih

theorem get?_insert_self (fs : BatchFS) (p : FPath) (v : Video) :
    (fs.insert p v).get? p = some v := by
  unfold BatchFS.insert BatchFS.get?
  rw [List.find?_cons, show (decide ((p, v).1 = p)) = true by simp]
  rfl

theorem get?_insert_ne (fs : BatchFS) (p q : FPath) (v : Video) (h : q ≠ p) :
    (fs.insert p v).get? q = fs.get? q := by
  unfold BatchFS.insert BatchFS.get?
  rw [List.find?_cons]
  have h2 : (decide ((p, v).1 = q)) = false := by
    simp only [decide_eq_false_iff_not]
    exact fun hh => h hh.symm
  rw [h2, find?_key_filter_ne _ p q h]

theorem get?_remove_ne (fs : BatchFS) (p q : FPath) (h : q ≠ p) :
    (fs.remove p).get? q = fs.get? q := by
  unfold BatchFS.remove BatchFS.get?
  rw [find?_key_filter_ne _ p q h]

theorem any_key_eq_find?_isSome (l : List (FPath × Video)) (p : FPath) :
    l.any (fun e => e.1 = p) = (l.find? (fun e => e.1 = p)).isSome := by
  induction l with
  | nil => rfl
  | cons a t ih =>
    rw [List.any_cons, List.find?_cons]
    by_cases hp : a.1 = p
    · rw [show (decide (a.1 = p)) = true by simp [hp], Bool.true_or]
      rfl
    · rw [show (decide (a.1 = p)) = false by simp [hp], Bool.false_or]
      exact ih

theorem existsFile_eq_isSome (fs : BatchFS) (p : FPath) :
    fs.existsFile p = (fs.get? p).isSome := by
  unfold BatchFS.existsFile BatchFS.get?
  rw [any_key_eq_find?_isSome]
  cases fs.files.find? (fun e => e.1 = p) <;> rfl

theorem existsFile_insert_self (fs : BatchFS) (p : FPath) (v : Video) :
    (fs.insert p v).existsFile p = true := by
  rw [existsFile_eq_isSome, get?_insert_self]
  rfl

theorem existsFile_insert_ne (fs : BatchFS) (p q : FPath) (v : Video) (h : q ≠ p) :
    (fs.insert p v).existsFile q = fs.existsFile q := by
  rw [existsFile_eq_isSome, get?_insert_ne fs p q v h, ← existsFile_eq_isSome]

theorem get?_remove_self (fs : BatchFS) (p : FPath) : (fs.remove p).get? p = none := by
  unfold BatchFS.remove BatchFS.get?
  rcases hf : (fs.files.filter (fun e => e.1 ≠ p)).find? (fun e => e.1 = p) with _ | e
  · rw [hf]
    rfl
  · exfalso
    have hmem := List.mem_of_find?_eq_some hf
    have hpe := List.find?_some hf
    have hne := (List.mem_filter.1 hmem).2
    simp at hne hpe
    exact hne hpe

theorem existsFile_remove_self (fs : BatchFS) (p : FPath) :
    (fs.remove p).existsFile p = false := by
  rw [existsFile_eq_isSome, get?_remove_self]
  rfl

theorem existsFile_remove_ne (fs : BatchFS) (p q : FPath) (h : q ≠ p) :
    (fs.remove p).existsFile q = fs.existsFile q := by
  rw [existsFile_eq_isSome, get?_remove_ne fs p q h, ← existsFile_eq_isSome]

/-- Lookups ignore the directory set, so the `mkdir` performed up front by
the batch constructor does not affect file contents. -/
theorem get?_mk_files (d : List String) (fs : BatchFS) (p : FPath) :
    (BatchFS.mk d fs.files).get? p = fs.get? p := rfl

/-! ### Theorems: discovery and validation (C9) -/

/-- C9: for every input path that does not exist as a directory,
`get_video_files` returns the empty list rather than failing, and both
`sequentialMerge` and `pairwiseMerge` invoked on it fail with the
fewer-than-2-videos validation record, not an I/O error. -/
theorem claim_C9 (fs : BatchFS) (input_dir output_dir fname : String)
    (hdir : input_dir ∉ fs.dirs) (hout : input_dir ≠ output_dir) :
    get_video_files fs input_dir = [] ∧
      (process_sequential_merge fs output_dir input_dir fname).1 =
        (false, "", [StepRec.validationError tooFewMsg]) ∧
      (process_pairwise_merge fs output_dir input_dir).1 =
        (false, [], [StepRec.validationError tooFewMsg]) := by
  have h0 : get_video_files (⟨output_dir :: fs.dirs, fs.files⟩ : BatchFS) input_dir = [] := by
    unfold get_video_files
    rw [if_neg]
    intro hmem
    rcases List.mem_cons.1 hmem with h | h
    · exact hout h
    · exact hdir h
  refine ⟨?_, ?_, ?_⟩
  · unfold get_video_files
    rw [if_neg hdir]
  · unfold process_sequential_merge
    dsimp only
    rw [h0]
    norm_num
  · unfold process_pairwise_merge
    dsimp only
    rw [h0]
    norm_num

/-- C9 witness: a concrete nonexistent input directory. -/
theorem claim_C9_witness :
    ("missing" ∉ (⟨[], []⟩ : BatchFS).dirs ∧ "missing" ≠ "output") ∧
      (get_video_files ⟨[], []⟩ "missing" = [] ∧
        (process_sequential_merge ⟨[], []⟩ "output" "missing" "merged_sequence.mp4").1 =
          (false, "", [StepRec.validationError tooFewMsg]) ∧
        (process_pairwise_merge ⟨[], []⟩ "output" "missing").1 =
          (false, [], [StepRec.validationError tooFewMsg])) :=
  ⟨⟨List.not_mem_nil _, by decide⟩,
    claim_C9 ⟨[], []⟩ "missing" "output" "merged_sequence.mp4" (List.not_mem_nil _)
      (by decide)⟩

/-! ### Theorems: the pairwise dead copy branch (C1) -/

/-- C1 evaluation at the failing input: over 5 discovered videos (both
complete-pair merges succeeding), `pairwiseMerge` yields only 2 outputs
and 2 step records — both true merges — and never produces the
`single_`-marked copy of the 5th file.  The loop
`range(0, len(video_files) - 1, 2)` stops before the unpaired index, so
the copy branch written for the odd case (with its own `"copied"` record)
is unreachable and `e.mp4` is silently dropped, where the claim promises
3 outputs including a verbatim copy. -/
theorem claim_C1 :
    (process_pairwise_merge pairInputFS "output" "input").1 =
      (true,
        [⟨"output", "merged_pair_1_a_b.mp4"⟩, ⟨"output", "merged_pair_2_c_d.mp4"⟩],
        [StepRec.success 1 "a.mp4" "b.mp4" 1 ⟨"output", "merged_pair_1_a_b.mp4"⟩,
         StepRec.success 2 "c.mp4" "d.mp4" 1 ⟨"output", "merged_pair_2_c_d.mp4"⟩]) ∧
      (process_pairwise_merge pairInputFS "output" "input").2.existsFile
        ⟨"output", "single_e.mp4"⟩ = false := by
  constructor
  · with_unfolding_all rfl
  · with_unfolding_all rfl

/-! ### Theorems: sequential-fold cleanup (C2) -/

/-- C2 counterexample: a concrete directory of 4 videos where every merge
step succeeds.  After the run, TWO produced files remain in the output
directory — the final output and the last intermediate
`temp_merge_2.mp4` (which the cleanup `if i > 1 and i < len - 1` never
deletes) — not exactly one as claimed.  The original first input is
untouched. -/
theorem claim_C2_counterexample :
    (process_sequential_merge seqInputFS "output" "input" "merged_sequence.mp4").1.1
        = true ∧
      ((process_sequential_merge seqInputFS "output" "input"
          "merged_sequence.mp4").2.files.filter
        (fun e => e.1.dir = "output")).length = 2 ∧
      (process_sequential_merge seqInputFS "output" "input"
          "merged_sequence.mp4").2.existsFile ⟨"output", "temp_merge_2.mp4"⟩ = true ∧
      (process_sequential_merge seqInputFS "output" "input"
          "merged_sequence.mp4").2.existsFile ⟨"input", "a.mp4"⟩ = true := by
  refine ⟨?_, ?_, ?_, ?_⟩
  · with_unfolding_all rfl
  · with_unfolding_all rfl
  · with_unfolding_all rfl
  · with_unfolding_all rfl

/-- One successful iteration of the sequential-fold loop, with the
cleanup decision left symbolic for the caller to resolve. -/
theorem seqSteps_succ_success (outdir ofn : String) (files : List FPath) (fuel i : Nat)
    (current next temp_output : FPath) (results : List StepRec) (fs : BatchFS)
    (vc vn merged : Video) (sim : ℚ)
    (hi : i < files.length)
    (hnext : files.getD i ⟨"", ""⟩ = next)
    (htemp : (if i = files.length - 1 then (⟨outdir, ofn⟩ : FPath)
      else ⟨outdir, tempMergeName i⟩) = temp_output)
    (hc : fs.get? current = some vc) (hn : fs.get? next = some vn)
    (hbr : process_video_bridge vc vn = some (merged, sim)) :
    seqSteps outdir ofn files (fuel + 1) i current results fs =
      seqSteps outdir ofn files fuel (i + 1) temp_output
        (results ++ [StepRec.success i current.base next.base sim temp_output])
        (if 1 < i ∧ i < files.length - 1 then
          (if (fs.insert temp_output merged).existsFile ⟨outdir, tempMergeName (i - 1)⟩ then
            (fs.insert temp_output merged).remove ⟨outdir, tempMergeName (i - 1)⟩
           else fs.insert temp_output merged)
         else fs.insert temp_output merged) := by
  simp only [seqSteps]
  rw [if_pos hi, hnext, htemp, hc, hn]
  dsimp only
  rw [hbr]

/-- C2 (amended): over a directory of 4 discovered videos in which no
merge step fails, the sequential fold records three `Success` steps and
leaves TWO produced files on disk — the final output at `outputName` and
the last intermediate `temp_merge_2.mp4`, which the cleanup condition
`i > 1 and i < len - 1` never deletes — while `temp_merge_1.mp4` is
deleted and every input file (the original first input included) is
untouched.  The claim's "exactly one produced file remains" holds only
for N = 2 (no intermediates); for N ≥ 3 the last intermediate always
survives. -/
theorem claim_C2 (fs : BatchFS) (outdir indir fname : String) (p1 p2 p3 p4 : FPath)
    (v1 v2 v3 v4 u1 u2 u3 : Video) (s1 s2 s3 : ℚ)
    (hdisc : get_video_files ⟨outdir :: fs.dirs, fs.files⟩ indir = [p1, p2, p3, p4])
    (hne : indir ≠ outdir)
    (hd3 : p3.dir = indir) (hd4 : p4.dir = indir)
    (hf1 : fname ≠ tempMergeName 1) (hf2 : fname ≠ tempMergeName 2)
    (hg1 : fs.get? p1 = some v1) (hg2 : fs.get? p2 = some v2)
    (hg3 : fs.get? p3 = some v3) (hg4 : fs.get? p4 = some v4)
    (hbr1 : process_video_bridge v1 v2 = some (u1, s1))
    (hbr2 : process_video_bridge u1 v3 = some (u2, s2))
    (hbr3 : process_video_bridge u2 v4 = some (u3, s3)) :
    (process_sequential_merge fs outdir indir fname).1.1 = true ∧
      (process_sequential_merge fs outdir indir fname).1.2.2 =
        [StepRec.success 1 p1.base p2.base s1 ⟨outdir, tempMergeName 1⟩,
         StepRec.success 2 (tempMergeName 1) p3.base s2 ⟨outdir, tempMergeName 2⟩,
         StepRec.success 3 (tempMergeName 2) p4.base s3 ⟨outdir, fname⟩] ∧
      (process_sequential_merge fs outdir indir fname).2.existsFile
        ⟨outdir, fname⟩ = true ∧
      (process_sequential_merge fs outdir indir fname).2.existsFile
        ⟨outdir, tempMergeName 2⟩ = true ∧
      (process_sequential_merge fs outdir indir fname).2.existsFile
        ⟨outdir, tempMergeName 1⟩ = false ∧
      ∀ q : FPath, q.dir = indir →
        (process_sequential_merge fs outdir indir fname).2.get? q = fs.get? q := by
  have hT12 : (⟨outdir, tempMergeName 1⟩ : FPath) ≠ ⟨outdir, tempMergeName 2⟩ :=
    fun hh => (by decide : tempMergeName 1 ≠ tempMergeName 2) (congrArg FPath.base hh)
  have hfinT1 : (⟨outdir, fname⟩ : FPath) ≠ ⟨outdir, tempMergeName 1⟩ :=
    fun hh => hf1 (congrArg FPath.base hh)
  have hfinT2 : (⟨outdir, fname⟩ : FPath) ≠ ⟨outdir, tempMergeName 2⟩ :=
    fun hh => hf2 (congrArg FPath.base hh)
  have hp3t1 : p3 ≠ (⟨outdir, tempMergeName 1⟩ : FPath) := by
    intro hh
    apply hne
    rw [← hd3, hh]
  have hp4t1 : p4 ≠ (⟨outdir, tempMergeName 1⟩ : FPath) := by
    intro hh
    apply hne
    rw [← hd4, hh]
  have hp4t2 : p4 ≠ (⟨outdir, tempMergeName 2⟩ : FPath) := by
    intro hh
    apply hne
    rw [← hd4, hh]
  have hq1 : (⟨outdir :: fs.dirs, fs.files⟩ : BatchFS).get? p1 = some v1 := hg1
  have hq2 : (⟨outdir :: fs.dirs, fs.files⟩ : BatchFS).get? p2 = some v2 := hg2
  have hq3 : (⟨outdir :: fs.dirs, fs.files⟩ : BatchFS).get? p3 = some v3 := hg3
  have hq4 : (⟨outdir :: fs.dirs, fs.files⟩ : BatchFS).get? p4 = some v4 := hg4
  have e1 := seqSteps_succ_success outdir fname [p1, p2, p3, p4] 2 1 p1 p2
    ⟨outdir, tempMergeName 1⟩ [] ⟨outdir :: fs.dirs, fs.files⟩ v1 v2 u1 s1
    (by simp) rfl (by simp) hq1 hq2 hbr1
  rw [if_neg (by norm_num)] at e1
  norm_num [List.nil_append, List.cons_append] at e1
  have hc2 : ((⟨outdir :: fs.dirs, fs.files⟩ : BatchFS).insert
      ⟨outdir, tempMergeName 1⟩ u1).get? ⟨outdir, tempMergeName 1⟩ = some u1 :=
    get?_insert_self _ _ _
  have hn2 : ((⟨outdir :: fs.dirs, fs.files⟩ : BatchFS).insert
      ⟨outdir, tempMergeName 1⟩ u1).get? p3 = some v3 := by
    rw [get?_insert_ne _ _ _ _ hp3t1]
    exact hq3
  have e2 := seqSteps_succ_success outdir fname [p1, p2, p3, p4] 1 2
    ⟨outdir, tempMergeName 1⟩ p3 ⟨outdir, tempMergeName 2⟩
    [StepRec.success 1 p1.base p2.base s1 ⟨outdir, tempMergeName 1⟩]
    ((⟨outdir :: fs.dirs, fs.files⟩ : BatchFS).insert ⟨outdir, tempMergeName 1⟩ u1)
    u1 v3 u2 s2 (by simp) rfl (by simp) hc2 hn2 hbr2
  rw [if_pos (by norm_num)] at e2
  rw [show (2 : Nat) - 1 = 1 from rfl] at e2
  rw [existsFile_insert_ne _ _ _ _ hT12, existsFile_insert_self, if_pos rfl] at e2
  norm_num [List.nil_append, List.cons_append] at e2
  have hc3 : ((((⟨outdir :: fs.dirs, fs.files⟩ : BatchFS).insert
      ⟨outdir, tempMergeName 1⟩ u1).insert ⟨outdir, tempMergeName 2⟩ u2).remove
        ⟨outdir, tempMergeName 1⟩).get? ⟨outdir, tempMergeName 2⟩ = some u2 := by
    rw [get?_remove_ne _ _ _ hT12.symm]
    exact get?_insert_self _ _ _
  have hn3 : ((((⟨outdir :: fs.dirs, fs.files⟩ : BatchFS).insert
      ⟨outdir, tempMergeName 1⟩ u1).insert ⟨outdir, tempMergeName 2⟩ u2).remove
        ⟨outdir, tempMergeName 1⟩).get? p4 = some v4 := by
    rw [get?_remove_ne _ _ _ hp4t1, get?_insert_ne _ _ _ _ hp4t2,
      get?_insert_ne _ _ _ _ hp4t1]
    exact hq4
  have e3 := seqSteps_succ_success outdir fname [p1, p2, p3, p4] 0 3
    ⟨outdir, tempMergeName 2⟩ p4 ⟨outdir, fname⟩
    [StepRec.success 1 p1.base p2.base s1 ⟨outdir, tempMergeName 1⟩,
     StepRec.success 2 (tempMergeName 1) p3.base s2 ⟨outdir, tempMergeName 2⟩]
    ((((⟨outdir :: fs.dirs, fs.files⟩ : BatchFS).insert
      ⟨outdir, tempMergeName 1⟩ u1).insert ⟨outdir, tempMergeName 2⟩ u2).remove
        ⟨outdir, tempMergeName 1⟩)
    u2 v4 u3 s3 (by simp) rfl (by simp) hc3 hn3 hbr3
  rw [if_neg (by norm_num)] at e3
  norm_num [List.nil_append, List.cons_append] at e3
  have hrun : seqSteps outdir fname [p1, p2, p3, p4] 3 1 p1 []
      (⟨outdir :: fs.dirs, fs.files⟩ : BatchFS) =
      ([StepRec.success 1 p1.base p2.base s1 ⟨outdir, tempMergeName 1⟩,
        StepRec.success 2 (tempMergeName 1) p3.base s2 ⟨outdir, tempMergeName 2⟩,
        StepRec.success 3 (tempMergeName 2) p4.base s3 ⟨outdir, fname⟩],
       ((((⟨outdir :: fs.dirs, fs.files⟩ : BatchFS).insert
          ⟨outdir, tempMergeName 1⟩ u1).insert ⟨outdir, tempMergeName 2⟩ u2).remove
            ⟨outdir, tempMergeName 1⟩).insert ⟨outdir, fname⟩ u3) := by
    rw [e1, e2, e3]
    simp only [seqSteps]
  have hps : process_sequential_merge fs outdir indir fname =
      (((((((⟨outdir :: fs.dirs, fs.files⟩ : BatchFS).insert
          ⟨outdir, tempMergeName 1⟩ u1).insert ⟨outdir, tempMergeName 2⟩ u2).remove
            ⟨outdir, tempMergeName 1⟩).insert ⟨outdir, fname⟩ u3).existsFile
          ⟨outdir, fname⟩,
        (⟨outdir, fname⟩ : FPath).toStr,
        [StepRec.success 1 p1.base p2.base s1 ⟨outdir, tempMergeName 1⟩,
         StepRec.success 2 (tempMergeName 1) p3.base s2 ⟨outdir, tempMergeName 2⟩,
         StepRec.success 3 (tempMergeName 2) p4.base s3 ⟨outdir, fname⟩]),
       ((((⟨outdir :: fs.dirs, fs.files⟩ : BatchFS).insert
          ⟨outdir, tempMergeName 1⟩ u1).insert ⟨outdir, tempMergeName 2⟩ u2).remove
            ⟨outdir, tempMergeName 1⟩).insert ⟨outdir, fname⟩ u3) := by
    unfold process_sequential_merge
    dsimp only
    rw [hdisc]
    rw [if_neg (by norm_num)]
    dsimp only [List.headD]
    rw [show ([p1, p2, p3, p4] : List FPath).length - 1 = 3 from rfl]
    rw [hrun]
  refine ⟨?_, ?_, ?_, ?_, ?_, ?_⟩
  · rw [hps]
    exact existsFile_insert_self _ _ _
  · rw [hps]
  · rw [hps]
    exact existsFile_insert_self _ _ _
  · rw [hps]
    dsimp only
    rw [existsFile_insert_ne _ _ _ _ hfinT2.symm, existsFile_remove_ne _ _ _ hT12.symm]
    exact existsFile_insert_self _ _ _
  · rw [hps]
    dsimp only
    rw [existsFile_insert_ne _ _ _ _ hfinT1.symm]
    exact existsFile_remove_self _ _
  · intro q hq
    have hqfin : q ≠ (⟨outdir, fname⟩ : FPath) := by
      intro hh
      apply hne
      rw [← hq, hh]
    have hqt1 : q ≠ (⟨outdir, tempMergeName 1⟩ : FPath) := by
      intro hh
      apply hne
      rw [← hq, hh]
    have hqt2 : q ≠ (⟨outdir, tempMergeName 2⟩ : FPath) := by
      intro hh
      apply hne
      rw [← hq, hh]
    rw [hps]
    dsimp only
    rw [get?_insert_ne _ _ _ _ hqfin, get?_remove_ne _ _ _ hqt1,
      get?_insert_ne _ _ _ _ hqt2, get?_insert_ne _ _ _ _ hqt1]
    rfl

/-- C2 witness: the amended theorem applied to a concrete directory of 4
videos whose three merge steps all succeed with similarity 1. -/
theorem claim_C2_witness :
    (get_video_files ⟨"output" :: seqInputFS.dirs, seqInputFS.files⟩ "input" =
        [⟨"input", "a.mp4"⟩, ⟨"input", "b.mp4"⟩, ⟨"input", "c.mp4"⟩, ⟨"input", "d.mp4"⟩] ∧
      "input" ≠ "output" ∧
      (⟨"input", "c.mp4"⟩ : FPath).dir = "input" ∧
      (⟨"input", "d.mp4"⟩ : FPath).dir = "input" ∧
      "merged_sequence.mp4" ≠ tempMergeName 1 ∧
      "merged_sequence.mp4" ≠ tempMergeName 2 ∧
      seqInputFS.get? ⟨"input", "a.mp4"⟩ = some sparseVideo ∧
      seqInputFS.get? ⟨"input", "b.mp4"⟩ = some sparseVideo ∧
      seqInputFS.get? ⟨"input", "c.mp4"⟩ = some sparseVideo ∧
      seqInputFS.get? ⟨"input", "d.mp4"⟩ = some sparseVideo ∧
      process_video_bridge sparseVideo sparseVideo = some (twoVideo, 1) ∧
      process_video_bridge twoVideo sparseVideo = some (twoVideo, 1)) ∧
    ((process_sequential_merge seqInputFS "output" "input" "merged_sequence.mp4").1.1
        = true ∧
      (process_sequential_merge seqInputFS "output" "input" "merged_sequence.mp4").1.2.2 =
        [StepRec.success 1 "a.mp4" "b.mp4" 1 ⟨"output", tempMergeName 1⟩,
         StepRec.success 2 (tempMergeName 1) "c.mp4" 1 ⟨"output", tempMergeName 2⟩,
         StepRec.success 3 (tempMergeName 2) "d.mp4" 1 ⟨"output", "merged_sequence.mp4"⟩] ∧
      (process_sequential_merge seqInputFS "output" "input"
          "merged_sequence.mp4").2.existsFile ⟨"output", "merged_sequence.mp4"⟩ = true ∧
      (process_sequential_merge seqInputFS "output" "input"
          "merged_sequence.mp4").2.existsFile ⟨"output", tempMergeName 2⟩ = true ∧
      (process_sequential_merge seqInputFS "output" "input"
          "merged_sequence.mp4").2.existsFile ⟨"output", tempMergeName 1⟩ = false ∧
      ∀ q : FPath, q.dir = "input" →
        (process_sequential_merge seqInputFS "output" "input"
          "merged_sequence.mp4").2.get? q = seqInputFS.get? q) :=
  ⟨⟨by with_unfolding_all rfl, by decide, rfl, rfl, by decide, by decide,
      by with_unfolding_all rfl, by with_unfolding_all rfl,
      by with_unfolding_all rfl, by with_unfolding_all rfl,
      by with_unfolding_all rfl, by with_unfolding_all rfl⟩,
    claim_C2 seqInputFS "output" "input" "merged_sequence.mp4"
      ⟨"input", "a.mp4"⟩ ⟨"input", "b.mp4"⟩ ⟨"input", "c.mp4"⟩ ⟨"input", "d.mp4"⟩
      sparseVideo sparseVideo sparseVideo sparseVideo twoVideo twoVideo twoVideo 1 1 1
      (by with_unfolding_all rfl) (by decide) rfl rfl (by decide) (by decide)
      (by with_unfolding_all rfl) (by with_unfolding_all rfl)
      (by with_unfolding_all rfl) (by with_unfolding_all rfl)
      (by with_unfolding_all rfl) (by with_unfolding_all rfl)
      (by with_unfolding_all rfl)⟩

end FrameBridge
